import Mathlib

/-!
Verification of the capture `Recorder` of bxt-rs (`src/modules/capture/recorder.rs`).

Modelling conventions:

* `f64` values (`video_remainder`, `sound_remainder`, `time_base`, `time`) are
  embedded as exact rationals `ℚ`.  All the claims under study are statements of
  exact real arithmetic (floor / ceil / interval bounds), and every counterexample
  below uses only values at which the corresponding `f64` computation is exact.
* Rust's `as usize` cast on a nonnegative-or-small `f64` truncates toward zero and
  saturates below at `0`; for every `x` this agrees with `⌊x⌋.toNat` (negative
  floors are clamped to `0` by `Int.toNat` exactly as the saturating cast clamps
  negative floats).  The upper saturation point `2^64` lies far beyond the range
  where `f64` is integer-exact (`2^53`), i.e. outside the exact-arithmetic
  idealization, so it is not modelled.
* Rust's `as i32` cast on an integral `f64` saturates into `[-2^31, 2^31 - 1]`;
  this range is fully integer-exact in `f64`, so the saturation is modelled.
* The two crossbeam channels are modelled as explicit state: `sent` is the trace
  of messages delivered host → worker, `inbox` is the (finite) list of messages
  the host will still receive from the worker before the worker's sender closes,
  and `senderOpen` says whether the worker still holds its receiving endpoint.
  A blocking `recv()` on an empty `inbox` is the channel-closed case.
* `eyre::Report` error values are modelled as `String`.
* The worker-side GPU backend (Vulkan) and the Muxer are external collaborators;
  their fallible calls are oracles (`Except String Unit` parameters), and their
  effects are recorded in explicit event traces.
-/

namespace Capture

/-- Message host → worker.  Mirrors `enum MainToThread`; `GiveExternalHandles`
is rendered as `GiveExtHandles`, `Vec<u8>` audio payloads as `List ℕ`. -/
inductive MainToThread where
  | Finish : MainToThread
  | GiveExtHandles : MainToThread
  | AcquireImage : MainToThread
  | Record : (frames : ℕ) → MainToThread
  | Audio : (samples : List ℕ) → MainToThread
deriving DecidableEq, Repr

/-- Message worker → host.  Mirrors `enum ThreadToMain`; the `ExternalHandles`
payload is abstracted to a `ℕ` tag (`ExtHandles`), errors to `String`. -/
inductive ThreadToMain where
  | Error : (e : String) → ThreadToMain
  | ExtHandles : (handles : ℕ) → ThreadToMain
  | AcquiredImage : ThreadToMain
deriving DecidableEq, Repr

/-- The `Recorder` struct.  The `thread`, `sender` and `receiver` fields live in
`Host` below (the channel model); `OpenGl` state is abstracted to `Option Unit`
(no claim touches it). -/
structure Recorder where
  width : ℤ
  height : ℤ
  time_base : ℚ
  video_remainder : ℚ
  sound_remainder : ℚ
  opengl : Option Unit
  acquired_image : Bool
  thread_error : Option String
deriving DecidableEq, Repr

/-- Host-side state: the `Recorder` plus the channel model. -/
structure Host where
  recorder : Recorder
  /-- Whether the worker still holds the receiving end of the host → worker
  channel (i.e. `sender.send` succeeds). -/
  senderOpen : Bool
  /-- Trace of messages delivered host → worker so far. -/
  sent : List MainToThread
  /-- Messages the host will still receive on `receiver`, in order, before the
  worker's sending end closes. -/
  inbox : List ThreadToMain
deriving DecidableEq, Repr

/-- Rust `as usize` on an `f64`: truncate toward zero, saturating below at 0.
For every rational this equals `⌊x⌋.toNat` (see the header on the upper
saturation point, which is outside the exact range of `f64`). -/
def usizeOfFloat (x : ℚ) : ℕ :=
  (⌊x⌋).toNat

/-- Rust `as i32` on an integral `f64`: saturate into `[-2^31, 2^31 - 1]`. -/
def i32Sat (n : ℤ) : ℤ :=
  max (-(2 ^ 31)) (min (2 ^ 31 - 1) n)

/-- The `while let Ok(message) = receiver.try_recv()/recv()` draining loops of
`send_to_thread` and `finish`: consume all buffered messages, keeping the last
`Error` payload in `thread_error`. -/
def drainKeepLastError : List ThreadToMain → Option String → Option String
  | [], acc => acc
  | ThreadToMain.Error e :: rest, _ => drainKeepLastError rest (some e)
  | _ :: rest, acc => drainKeepLastError rest acc

/-- Mirrors `Recorder::send_to_thread`: on the happy path the message is delivered; if
the channel is closed, drain the return channel looking for a stashed error. -/
def send_to_thread (h : Host) (message : MainToThread) : Host :=
  if h.senderOpen then
    { h with sent := h.sent ++ [message] }
  else
    { h with
      inbox := []
      recorder := { h.recorder with
        thread_error := drainKeepLastError h.inbox h.recorder.thread_error } }

/-- The literal string of `eyre!("recording thread error")`. -/
def recordingThreadErrorMessage : String :=
  "recording thread error"

/-- Mirrors `Recorder::recv_from_thread`: a closed (empty) channel yields the stashed
error (taken) or the fallback report; a received `Error` is returned as `Err`;
any other message is returned as `Ok`. -/
def recv_from_thread (h : Host) : Except String ThreadToMain × Host :=
  match h.inbox with
  | [] =>
    (Except.error (h.recorder.thread_error.getD recordingThreadErrorMessage),
      { h with recorder := { h.recorder with thread_error := none } })
  | m :: rest =>
    match m with
    | ThreadToMain.Error e => (Except.error e, { h with inbox := rest })
    | m => (Except.ok m, { h with inbox := rest })

/-- Outcome of a host-side fallible call.  The two `assert!` sites of
`Recorder::record` are distinguished panic outcomes. -/
inductive RecOutcome where
  | ok : RecOutcome
  | fail : (e : String) → RecOutcome
  | assertAcquiredViolated : RecOutcome
  | assertMatchesViolated : RecOutcome
deriving DecidableEq, Repr

/-- Mirrors `Recorder::acquire_image_if_needed`. -/
def acquire_image_if_needed (h : Host) : Host :=
  if h.recorder.acquired_image then h
  else
    let frames := usizeOfFloat (h.recorder.video_remainder + 1 / 2)
    if frames = 0 then h
    else
      send_to_thread
        { h with recorder := { h.recorder with acquired_image := true } }
        MainToThread.AcquireImage

/-- Mirrors `Recorder::record`: assert the image was acquired, block for the
`AcquiredImage` acknowledgment (propagating a received or stashed error),
clear the flag and send `Record { frames }`. -/
def record (h : Host) (frames : ℕ) : RecOutcome × Host :=
  if h.recorder.acquired_image = false then (RecOutcome.assertAcquiredViolated, h)
  else
    match recv_from_thread h with
    | (Except.error e, h') => (RecOutcome.fail e, h')
    | (Except.ok m, h') =>
      if m = ThreadToMain.AcquiredImage then
        let h'' := { h' with recorder := { h'.recorder with acquired_image := false } }
        (RecOutcome.ok, send_to_thread h'' (MainToThread.Record frames))
      else (RecOutcome.assertMatchesViolated, h')

/-- Mirrors `Recorder::record_last_frame`: `frames = (video_remainder + 0.5) as usize`,
subtract, and call `record` only when `frames > 0`. -/
def record_last_frame (h : Host) : RecOutcome × Host :=
  let frames := usizeOfFloat (h.recorder.video_remainder + 1 / 2)
  let h' := { h with recorder := { h.recorder with
    video_remainder := h.recorder.video_remainder - (frames : ℚ) } }
  if 0 < frames then record h' frames else (RecOutcome.ok, h')

/-- Mirrors `Recorder::time_passed`. -/
def time_passed (h : Host) (time : ℚ) : Host :=
  acquire_image_if_needed
    { h with recorder := { h.recorder with
      video_remainder := h.recorder.video_remainder + time / h.recorder.time_base
      sound_remainder := h.recorder.sound_remainder + time } }

/-- Mirrors `SoundCaptureMode` (declared in `capture/mod.rs`, used here); the `extra`
seconds field is a float, embedded as `ℚ`. -/
inductive SoundCaptureMode where
  | Normal : SoundCaptureMode
  | Remaining : (extra : ℚ) → SoundCaptureMode
deriving DecidableEq, Repr

/-- Mirrors `Recorder::samples_to_capture`.  The returned `samples_rounded as i32` is
the saturating cast of the exact rounded value; the remainder update uses the
unsaturated rounded value, exactly as the source does. -/
def samples_to_capture (h : Host) (samples_per_second : ℤ)
    (mode : SoundCaptureMode) : ℤ × Host :=
  let samples : ℚ := h.recorder.sound_remainder * (samples_per_second : ℚ)
  let samples_rounded : ℤ :=
    match mode with
    | SoundCaptureMode.Normal => ⌊samples⌋
    | SoundCaptureMode.Remaining extra =>
      ⌈samples + extra * (samples_per_second : ℚ)⌉
  let h' := { h with recorder := { h.recorder with
    sound_remainder := (samples - (samples_rounded : ℚ)) / (samples_per_second : ℚ) } }
  (i32Sat samples_rounded, h')

/-- Result of `Recorder::finish`.  The Rust function returns `()`; its only
outputs are the messages it sent, the side-channel log line, and the completed
join.  There is no error component: `finish` cannot return an error. -/
structure FinishResult where
  sent : List MainToThread
  logged : Option String
  joined : Bool
deriving DecidableEq, Repr

/-- Mirrors `Recorder::finish`: send `Finish`, drain every remaining worker → host
message keeping the last error, join the thread, log the collected error. -/
def finish (h : Host) : FinishResult :=
  let h1 := send_to_thread h MainToThread.Finish
  let finalError := drainKeepLastError h1.inbox h1.recorder.thread_error
  { sent := h1.sent
    logged := finalError
    joined := true }

/-- The validation / setup errors of `Recorder::init`.  `Validation` is the
`ensure!` failure on odd dimensions; `FfmpegSpawnError` is the specially
wrapped `MuxerInitError::FfmpegSpawn`; `MuxerError` covers other muxer init
failures. -/
inductive InitError where
  | Validation : (width height : ℤ) → InitError
  | VulkanError : (e : String) → InitError
  | FfmpegSpawnError : (e : String) → InitError
  | MuxerError : (e : String) → InitError
deriving DecidableEq, Repr

/-- Mirrors `MuxerInitError`, at the granularity `init` distinguishes. -/
inductive MuxerInitError where
  | FfmpegSpawn : (e : String) → MuxerInitError
  | Other : (e : String) → MuxerInitError
deriving DecidableEq, Repr

/-- Side effects `Recorder::init` performs, in order. -/
inductive InitEffect where
  | VulkanInit : InitEffect
  | MuxerNew : InitEffect
  | ChannelsCreated : InitEffect
  | ThreadSpawned : InitEffect
deriving DecidableEq, Repr

/-- Mirrors `Recorder::init`.  The external `vulkan::init` and `Muxer::new` calls are
oracles; the returned trace lists the effects actually performed, in source
order: the `ensure!` dimension check runs before any of them.  (Rust's `%` on
`i32` truncates while Lean's `Int.emod` floors, but the two agree on the
`== 0` test against the positive modulus `2`.) -/
def init (width height : ℤ) (fps : ℕ) (_filename : String)
    (vulkanResult : Except String Unit)
    (muxerResult : Except MuxerInitError Unit) :
    Except InitError Recorder × List InitEffect :=
  if ¬(width % 2 = 0 ∧ height % 2 = 0) then
    (Except.error (InitError.Validation width height), [])
  else
    match vulkanResult with
    | Except.error e => (Except.error (InitError.VulkanError e), [InitEffect.VulkanInit])
    | Except.ok _ =>
      let time_base : ℚ := 1 / (fps : ℚ)
      match muxerResult with
      | Except.error (MuxerInitError.FfmpegSpawn e) =>
        (Except.error (InitError.FfmpegSpawnError e),
          [InitEffect.VulkanInit, InitEffect.MuxerNew])
      | Except.error (MuxerInitError.Other e) =>
        (Except.error (InitError.MuxerError e),
          [InitEffect.VulkanInit, InitEffect.MuxerNew])
      | Except.ok _ =>
        (Except.ok
          { width := width
            height := height
            time_base := time_base
            video_remainder := 0
            sound_remainder := 0
            opengl := none
            acquired_image := false
            thread_error := none },
          [InitEffect.VulkanInit, InitEffect.MuxerNew,
            InitEffect.ChannelsCreated, InitEffect.ThreadSpawned])

/-- The host state right after a successful `init` (`filename` only feeds the
muxer): fresh accumulators, no acquired image, channels open with the given
future worker → host stream. -/
def initialHost (width height : ℤ) (fps : ℕ) (senderOpen : Bool)
    (inbox : List ThreadToMain) : Host :=
  { recorder :=
      { width := width
        height := height
        time_base := 1 / (fps : ℚ)
        video_remainder := 0
        sound_remainder := 0
        opengl := none
        acquired_image := false
        thread_error := none }
    senderOpen := senderOpen
    sent := []
    inbox := inbox }

/-- The public calls a host may interleave for the timing claims. -/
inductive Op where
  | timePassed : (dt : ℚ) → Op
  | recordLastFrame : Op
deriving DecidableEq, Repr

/-- Run a sequence of public calls. -/
def runOps : Host → List Op → Host
  | h, [] => h
  | h, Op.timePassed dt :: rest => runOps (time_passed h dt) rest
  | h, Op.recordLastFrame :: rest => runOps (record_last_frame h).2 rest

/-- The outcomes of the `record_last_frame` calls along a run, in order. -/
def runOutcomes : Host → List Op → List RecOutcome
  | _, [] => []
  | h, Op.timePassed dt :: rest => runOutcomes (time_passed h dt) rest
  | h, Op.recordLastFrame :: rest =>
    (record_last_frame h).1 :: runOutcomes (record_last_frame h).2 rest

/-- A `timePassed` step has a nonnegative `dt`; `recordLastFrame` has none. -/
def Op.dtNonNeg : Op → Prop
  | Op.timePassed dt => 0 ≤ dt
  | Op.recordLastFrame => True

instance : DecidablePred Op.dtNonNeg := fun op =>
  match op with
  | Op.timePassed dt => inferInstanceAs (Decidable (0 ≤ dt))
  | Op.recordLastFrame => inferInstanceAs (Decidable True)

/-- Every `time_passed` step of the sequence has a nonnegative `dt`. -/
def NonNegDts (ops : List Op) : Prop :=
  ∀ op ∈ ops, op.dtNonNeg

/-! The worker thread (`fn thread` and `fn process_message`). -/

/-- Observable worker events: messages sent worker → host, muxer writes, and
the muxer close. -/
inductive WEvent where
  | sentToMain : (m : ThreadToMain) → WEvent
  | muxedVideo : (frames : ℕ) → WEvent
  | muxedAudio : (samples : List ℕ) → WEvent
  | muxerClose : WEvent
deriving DecidableEq, Repr

/-- Mirrors `fn process_message`.  Each arm's external call (Vulkan or Muxer) is the
`effectResult` oracle; `Finish` performs no external call.  Returns the events
of the arm and `Ok(done) / Err(e)` exactly as the source. -/
def process_message (message : MainToThread) (effectResult : Except String Unit) :
    List WEvent × Except String Bool :=
  match message with
  | MainToThread.Finish => ([], Except.ok true)
  | MainToThread.GiveExtHandles =>
    match effectResult with
    | Except.error e => ([], Except.error e)
    | Except.ok _ =>
      ([WEvent.sentToMain (ThreadToMain.ExtHandles 0)], Except.ok false)
  | MainToThread.AcquireImage =>
    match effectResult with
    | Except.error e => ([], Except.error e)
    | Except.ok _ => ([WEvent.sentToMain ThreadToMain.AcquiredImage], Except.ok false)
  | MainToThread.Record frames =>
    match effectResult with
    | Except.error e => ([], Except.error e)
    | Except.ok _ => ([WEvent.muxedVideo frames], Except.ok false)
  | MainToThread.Audio samples =>
    match effectResult with
    | Except.error e => ([], Except.error e)
    | Except.ok _ => ([WEvent.muxedAudio samples], Except.ok false)

/-- Mirrors `fn thread`: pull messages in order; stop on `Finish` (`Ok(true)`), on the
first processing error (sending `Error(err)` first), or when the inbound
channel closes (end of list); then close the muxer. -/
def runThread : List (MainToThread × Except String Unit) → List WEvent
  | [] => [WEvent.muxerClose]
  | (message, r) :: rest =>
    match process_message message r with
    | (events, Except.ok true) => events ++ [WEvent.muxerClose]
    | (events, Except.ok false) => events ++ runThread rest
    | (events, Except.error e) =>
      events ++ [WEvent.sentToMain (ThreadToMain.Error e), WEvent.muxerClose]

/-- Number of `muxerClose` events in a worker trace. -/
def countClose : List WEvent → ℕ
  | [] => 0
  | WEvent.muxerClose :: rest => countClose rest + 1
  | _ :: rest => countClose rest

/-! Helper lemmas: which fields each host operation can touch. -/

theorem send_to_thread_recorder_core (h : Host) (m : MainToThread) :
    (send_to_thread h m).recorder.video_remainder = h.recorder.video_remainder ∧
    (send_to_thread h m).recorder.sound_remainder = h.recorder.sound_remainder ∧
    (send_to_thread h m).recorder.time_base = h.recorder.time_base ∧
    (send_to_thread h m).recorder.acquired_image = h.recorder.acquired_image ∧
    (send_to_thread h m).senderOpen = h.senderOpen := by
  unfold send_to_thread
  split <;> exact ⟨rfl, rfl, rfl, rfl, rfl⟩

theorem send_to_thread_open (h : Host) (m : MainToThread)
    (hopen : h.senderOpen = true) :
    send_to_thread h m = { h with sent := h.sent ++ [m] } := by
  unfold send_to_thread
  rw [hopen]
  rfl

theorem recv_from_thread_recorder_core (h : Host) :
    (recv_from_thread h).2.recorder.video_remainder = h.recorder.video_remainder ∧
    (recv_from_thread h).2.recorder.sound_remainder = h.recorder.sound_remainder ∧
    (recv_from_thread h).2.recorder.time_base = h.recorder.time_base ∧
    (recv_from_thread h).2.recorder.acquired_image = h.recorder.acquired_image ∧
    (recv_from_thread h).2.senderOpen = h.senderOpen ∧
    (recv_from_thread h).2.sent = h.sent := by
  unfold recv_from_thread
  rcases h.inbox with _ | ⟨m, rest⟩
  · exact ⟨rfl, rfl, rfl, rfl, rfl, rfl⟩
  · cases m <;> exact ⟨rfl, rfl, rfl, rfl, rfl, rfl⟩

theorem record_recorder_core (h : Host) (frames : ℕ) :
    (record h frames).2.recorder.video_remainder = h.recorder.video_remainder ∧
    (record h frames).2.recorder.sound_remainder = h.recorder.sound_remainder ∧
    (record h frames).2.recorder.time_base = h.recorder.time_base := by
  unfold record
  split
  · exact ⟨rfl, rfl, rfl⟩
  · rcases hrecv : recv_from_thread h with ⟨res, h'⟩
    have hcore := recv_from_thread_recorder_core h
    rw [hrecv] at hcore
    cases res with
    | error e => exact ⟨hcore.1, hcore.2.1, hcore.2.2.1⟩
    | ok m =>
      by_cases hm : m = ThreadToMain.AcquiredImage
      · simp only [hm, if_pos rfl]
        have hsend := send_to_thread_recorder_core
          { h' with recorder := { h'.recorder with acquired_image := false } }
          (MainToThread.Record frames)
        exact ⟨hsend.1.trans hcore.1, hsend.2.1.trans hcore.2.1,
          hsend.2.2.1.trans hcore.2.2.1⟩
      · simp only [if_neg hm]
        exact ⟨hcore.1, hcore.2.1, hcore.2.2.1⟩

theorem acquire_image_if_needed_core (h : Host) :
    (acquire_image_if_needed h).recorder.video_remainder = h.recorder.video_remainder ∧
    (acquire_image_if_needed h).recorder.sound_remainder = h.recorder.sound_remainder ∧
    (acquire_image_if_needed h).recorder.time_base = h.recorder.time_base := by
  unfold acquire_image_if_needed
  dsimp only
  split
  · exact ⟨rfl, rfl, rfl⟩
  · split
    · exact ⟨rfl, rfl, rfl⟩
    · have hsend := send_to_thread_recorder_core
        { h with recorder := { h.recorder with acquired_image := true } }
        MainToThread.AcquireImage
      exact ⟨hsend.1, hsend.2.1, hsend.2.2.1⟩

theorem record_last_frame_vr (h : Host) :
    (record_last_frame h).2.recorder.video_remainder =
      h.recorder.video_remainder -
        (usizeOfFloat (h.recorder.video_remainder + 1 / 2) : ℚ) := by
  unfold record_last_frame
  dsimp only
  split
  · exact (record_recorder_core _ _).1
  · rfl

theorem time_passed_vr (h : Host) (dt : ℚ) :
    (time_passed h dt).recorder.video_remainder =
      h.recorder.video_remainder + dt / h.recorder.time_base ∧
    (time_passed h dt).recorder.sound_remainder =
      h.recorder.sound_remainder + dt ∧
    (time_passed h dt).recorder.time_base = h.recorder.time_base := by
  unfold time_passed
  exact acquire_image_if_needed_core _

/-! Helper lemmas: the round-half-up frame count and the remainder interval. -/

theorem usizeOfFloat_zero_iff (x : ℚ) : usizeOfFloat x = 0 ↔ ⌊x⌋ ≤ 0 := by
  unfold usizeOfFloat
  omega

theorem usizeOfFloat_pos_iff (x : ℚ) : 0 < usizeOfFloat x ↔ 1 ≤ ⌊x⌋ := by
  unfold usizeOfFloat
  omega

theorem usizeOfFloat_cast (x : ℚ) (hx : 0 ≤ x) :
    (usizeOfFloat x : ℚ) = (⌊x⌋ : ℚ) := by
  unfold usizeOfFloat
  have h0 : 0 ≤ ⌊x⌋ := Int.floor_nonneg.mpr hx
  exact_mod_cast Int.toNat_of_nonneg h0

/-- The half-up remainder interval: starting from `x ≥ -1/2`, subtracting the
saturated-cast frame count `⌊x + 1/2⌋.toNat` lands exactly in `[-1/2, 1/2)`. -/
theorem halfUp_remainder_bounds (x : ℚ) (hx : -(1 / 2) ≤ x) :
    -(1 / 2) ≤ x - (usizeOfFloat (x + 1 / 2) : ℚ) ∧
      x - (usizeOfFloat (x + 1 / 2) : ℚ) < 1 / 2 := by
  have hx2 : (0 : ℚ) ≤ x + 1 / 2 := by linarith
  rw [usizeOfFloat_cast _ hx2]
  have hfr1 : (0 : ℚ) ≤ Int.fract (x + 1 / 2) := Int.fract_nonneg _
  have hfr2 : Int.fract (x + 1 / 2) < 1 := Int.fract_lt_one _
  have hdef : Int.fract (x + 1 / 2) = x + 1 / 2 - (⌊x + 1 / 2⌋ : ℚ) := rfl
  constructor <;> [linarith; linarith]

/-- Full run of `record_last_frame` when `frames > 0`, the image was acquired,
the worker acknowledges, and the channel is open. -/
theorem record_last_frame_pos_eq (h : Host) (rest : List ThreadToMain)
    (hopen : h.senderOpen = true)
    (hacq : h.recorder.acquired_image = true)
    (hinbox : h.inbox = ThreadToMain.AcquiredImage :: rest)
    (hfr : 0 < usizeOfFloat (h.recorder.video_remainder + 1 / 2)) :
    record_last_frame h =
      (RecOutcome.ok,
        { recorder := { h.recorder with
            video_remainder := h.recorder.video_remainder -
              (usizeOfFloat (h.recorder.video_remainder + 1 / 2) : ℚ)
            acquired_image := false }
          senderOpen := h.senderOpen
          sent := h.sent ++
            [MainToThread.Record (usizeOfFloat (h.recorder.video_remainder + 1 / 2))]
          inbox := rest }) := by
  unfold record_last_frame record recv_from_thread send_to_thread
  dsimp only
  rw [if_pos hfr]
  simp only [hacq, hinbox, hopen]
  norm_num

/-- Run of `record_last_frame` when `frames = 0`: the state is unchanged. -/
theorem record_last_frame_zero_eq (h : Host)
    (hfr : usizeOfFloat (h.recorder.video_remainder + 1 / 2) = 0) :
    record_last_frame h = (RecOutcome.ok, h) := by
  unfold record_last_frame
  dsimp only
  rw [hfr]
  norm_num

/-- C1 (amended): for every state with `video_remainder > -1/2`, with the
worker channel open, the image acquired, and the worker's acknowledgment
pending, `record_last_frame` computes `frames = ⌊video_remainder + 0.5⌋`
(round-half-up), subtracts `frames` from `video_remainder` leaving the
remainder in `[-0.5, 0.5)`, and performs the blocking acquisition handshake
followed by sending `Record{frames}` exactly when `frames > 0`; when
`frames = 0` no message is sent and no wait occurs. -/
theorem c1_record_last_frame_amended (h : Host) (rest : List ThreadToMain)
    (hopen : h.senderOpen = true)
    (hacq : h.recorder.acquired_image = true)
    (hinbox : h.inbox = ThreadToMain.AcquiredImage :: rest)
    (hlo : -(1 / 2) < h.recorder.video_remainder) :
    (record_last_frame h).2.recorder.video_remainder =
      h.recorder.video_remainder - (⌊h.recorder.video_remainder + 1 / 2⌋ : ℚ) ∧
    -(1 / 2) ≤ (record_last_frame h).2.recorder.video_remainder ∧
    (record_last_frame h).2.recorder.video_remainder < 1 / 2 ∧
    (1 ≤ ⌊h.recorder.video_remainder + 1 / 2⌋ →
      (record_last_frame h).1 = RecOutcome.ok ∧
      (record_last_frame h).2.sent = h.sent ++
        [MainToThread.Record (⌊h.recorder.video_remainder + 1 / 2⌋).toNat] ∧
      (record_last_frame h).2.inbox = rest ∧
      (record_last_frame h).2.recorder.acquired_image = false) ∧
    (⌊h.recorder.video_remainder + 1 / 2⌋ ≤ 0 →
      (record_last_frame h).1 = RecOutcome.ok ∧
      (record_last_frame h).2.sent = h.sent ∧
      (record_last_frame h).2.inbox = h.inbox ∧
      (record_last_frame h).2.recorder.acquired_image = h.recorder.acquired_image) := by
  have hx : -(1 / 2) ≤ h.recorder.video_remainder := le_of_lt hlo
  have hx2 : (0 : ℚ) ≤ h.recorder.video_remainder + 1 / 2 := by linarith
  have hb := halfUp_remainder_bounds h.recorder.video_remainder hx
  have hvr := record_last_frame_vr h
  have hcast := usizeOfFloat_cast (h.recorder.video_remainder + 1 / 2) hx2
  refine ⟨by rw [hvr, hcast], by rw [hvr]; exact hb.1, by rw [hvr]; exact hb.2, ?_, ?_⟩
  · intro h1
    have hfr : 0 < usizeOfFloat (h.recorder.video_remainder + 1 / 2) :=
      (usizeOfFloat_pos_iff _).mpr h1
    rw [record_last_frame_pos_eq h rest hopen hacq hinbox hfr]
    exact ⟨rfl, rfl, rfl, rfl⟩
  · intro h0
    have hfr : usizeOfFloat (h.recorder.video_remainder + 1 / 2) = 0 :=
      (usizeOfFloat_zero_iff _).mpr h0
    rw [record_last_frame_zero_eq h hfr]
    exact ⟨rfl, rfl, rfl, rfl⟩

/-- A state with `video_remainder = 1/2` exactly; reachable, e.g. from
`init(_, _, fps := 2, _)` followed by `time_passed(1/4)`. -/
def c1Host : Host :=
  { recorder :=
      { width := 640
        height := 480
        time_base := 1 / 2
        video_remainder := 1 / 2
        sound_remainder := 1 / 4
        opengl := none
        acquired_image := true
        thread_error := none }
    senderOpen := true
    sent := [MainToThread.AcquireImage]
    inbox := [ThreadToMain.AcquiredImage] }

/-- C1 counterexample: at `video_remainder = 1/2` the computed frame count is
`⌊1⌋ = 1` and the new remainder is exactly `-1/2`, which is not in the claimed
interval `(-0.5, 0.5]` — the code's remainder lands in `[-0.5, 0.5)`. -/
theorem c1_counterexample :
    (record_last_frame c1Host).2.recorder.video_remainder = -(1 / 2) ∧
    ¬(-(1 / 2) < (record_last_frame c1Host).2.recorder.video_remainder ∧
      (record_last_frame c1Host).2.recorder.video_remainder ≤ 1 / 2) := by
  norm_num [record_last_frame, record, recv_from_thread, send_to_thread,
    usizeOfFloat, c1Host]

/-- A concrete state for the C1 witness: `video_remainder = 3/2`. -/
def c1WitnessHost : Host :=
  { recorder :=
      { width := 640
        height := 480
        time_base := 1 / 60
        video_remainder := 3 / 2
        sound_remainder := 0
        opengl := none
        acquired_image := true
        thread_error := none }
    senderOpen := true
    sent := []
    inbox := [ThreadToMain.AcquiredImage] }

/-- C1 witness: the amended theorem applied at `video_remainder = 3/2`. -/
theorem c1_witness :
    (record_last_frame c1WitnessHost).2.recorder.video_remainder =
      c1WitnessHost.recorder.video_remainder -
        (⌊c1WitnessHost.recorder.video_remainder + 1 / 2⌋ : ℚ) ∧
    -(1 / 2) ≤ (record_last_frame c1WitnessHost).2.recorder.video_remainder ∧
    (record_last_frame c1WitnessHost).2.recorder.video_remainder < 1 / 2 ∧
    (1 ≤ ⌊c1WitnessHost.recorder.video_remainder + 1 / 2⌋ →
      (record_last_frame c1WitnessHost).1 = RecOutcome.ok ∧
      (record_last_frame c1WitnessHost).2.sent = c1WitnessHost.sent ++
        [MainToThread.Record (⌊c1WitnessHost.recorder.video_remainder + 1 / 2⌋).toNat] ∧
      (record_last_frame c1WitnessHost).2.inbox = [] ∧
      (record_last_frame c1WitnessHost).2.recorder.acquired_image = false) ∧
    (⌊c1WitnessHost.recorder.video_remainder + 1 / 2⌋ ≤ 0 →
      (record_last_frame c1WitnessHost).1 = RecOutcome.ok ∧
      (record_last_frame c1WitnessHost).2.sent = c1WitnessHost.sent ∧
      (record_last_frame c1WitnessHost).2.inbox = c1WitnessHost.inbox ∧
      (record_last_frame c1WitnessHost).2.recorder.acquired_image =
        c1WitnessHost.recorder.acquired_image) :=
  c1_record_last_frame_amended c1WitnessHost [] rfl rfl rfl
    (by norm_num [c1WitnessHost])

/-! Helper lemmas for the run-level invariants (C2 and C4). -/

theorem record_last_frame_tb (h : Host) :
    (record_last_frame h).2.recorder.time_base = h.recorder.time_base := by
  unfold record_last_frame
  dsimp only
  split
  · exact (record_recorder_core _ _).2.2
  · rfl

theorem runOps_append (h : Host) (a b : List Op) :
    runOps h (a ++ b) = runOps (runOps h a) b := by
  induction a generalizing h with
  | nil => rfl
  | cons op rest ih =>
    cases op with
    | timePassed dt => simpa [runOps] using ih (time_passed h dt)
    | recordLastFrame => simpa [runOps] using ih (record_last_frame h).2

theorem nonNegDts_cons {op : Op} {ops : List Op} (hnn : NonNegDts (op :: ops)) :
    op.dtNonNeg ∧ NonNegDts ops :=
  ⟨hnn op (List.mem_cons_self op ops),
    fun x hx => hnn x (List.mem_cons_of_mem op hx)⟩

/-- The state invariant behind C2: nonnegative time base and the video
remainder never below `-1/2`. -/
def VrInv (h : Host) : Prop :=
  0 ≤ h.recorder.time_base ∧ -(1 / 2) ≤ h.recorder.video_remainder

theorem vrInv_time_passed (h : Host) (dt : ℚ) (hdt : 0 ≤ dt) (H : VrInv h) :
    VrInv (time_passed h dt) := by
  have hcore := time_passed_vr h dt
  refine ⟨by rw [hcore.2.2]; exact H.1, ?_⟩
  rw [hcore.1]
  have hdiv : 0 ≤ dt / h.recorder.time_base := div_nonneg hdt H.1
  linarith [H.2]

theorem vrInv_record_last_frame (h : Host) (H : VrInv h) :
    VrInv (record_last_frame h).2 ∧
      (record_last_frame h).2.recorder.video_remainder < 1 / 2 := by
  have hb := halfUp_remainder_bounds h.recorder.video_remainder H.2
  have hvr := record_last_frame_vr h
  have htb := record_last_frame_tb h
  exact ⟨⟨by rw [htb]; exact H.1, by rw [hvr]; exact hb.1⟩, by rw [hvr]; exact hb.2⟩

theorem runOps_vrInv (ops : List Op) :
    ∀ h : Host, VrInv h → NonNegDts ops → VrInv (runOps h ops) := by
  induction ops with
  | nil => exact fun h H _ => H
  | cons op rest ih =>
    intro h H hnn
    obtain ⟨hop, hrest⟩ := nonNegDts_cons hnn
    cases op with
    | timePassed dt =>
      exact ih (time_passed h dt) (vrInv_time_passed h dt hop H) hrest
    | recordLastFrame =>
      exact ih (record_last_frame h).2 (vrInv_record_last_frame h H).1 hrest

theorem vrInv_initialHost (w hgt : ℤ) (fps : ℕ) (so : Bool)
    (inbox : List ThreadToMain) : VrInv (initialHost w hgt fps so inbox) := by
  constructor
  · have : (0 : ℚ) ≤ (fps : ℚ) := Nat.cast_nonneg fps
    exact one_div_nonneg.mpr this
  · norm_num [initialHost]

/-- C2 (amended): starting from the state produced by `init`, along every
sequence of `time_passed(dt)` (`dt ≥ 0`) and `record_last_frame()` calls,
`video_remainder` lies in `[-0.5, +∞)` after every call, and in `[-0.5, 0.5)`
after every `record_last_frame` call.  (The original open/half-open endpoints
are wrong: the left endpoint `-0.5` is attained, the right one is not.) -/
theorem c2_video_remainder_invariant (w hgt : ℤ) (fps : ℕ) (so : Bool)
    (inbox : List ThreadToMain) (ops : List Op) (hnn : NonNegDts ops) :
    -(1 / 2) ≤ (runOps (initialHost w hgt fps so inbox) ops).recorder.video_remainder ∧
    (∀ pre, ops = pre ++ [Op.recordLastFrame] →
      (runOps (initialHost w hgt fps so inbox) ops).recorder.video_remainder < 1 / 2) := by
  constructor
  · exact (runOps_vrInv ops _ (vrInv_initialHost w hgt fps so inbox) hnn).2
  · intro pre hpre
    subst hpre
    rw [runOps_append]
    have hnnpre : NonNegDts pre :=
      fun x hx => hnn x (List.mem_append_left _ hx)
    have hinv := runOps_vrInv pre _ (vrInv_initialHost w hgt fps so inbox) hnnpre
    have hlast := (vrInv_record_last_frame _ hinv).2
    simpa [runOps] using hlast

/-- C2 counterexample: with `fps = 2` (`time_base = 1/2`), after
`time_passed(1/4)` the remainder is exactly `1/2`; the following
`record_last_frame()` outputs one frame and leaves the remainder at exactly
`-1/2`, outside the claimed interval `(-0.5, 0.5]`. -/
theorem c2_counterexample :
    ¬(-(1 / 2) <
      (runOps (initialHost 640 480 2 true [ThreadToMain.AcquiredImage])
        [Op.timePassed (1 / 4), Op.recordLastFrame]).recorder.video_remainder) := by
  norm_num [runOps, initialHost, time_passed, acquire_image_if_needed,
    record_last_frame, record, recv_from_thread, send_to_thread, usizeOfFloat]

/-- C2 witness: the amended invariant evaluated on a concrete run at
`fps = 60` with one exact-length frame. -/
theorem c2_witness :
    -(1 / 2) ≤ (runOps (initialHost 640 480 60 true [ThreadToMain.AcquiredImage])
      [Op.timePassed (1 / 60), Op.recordLastFrame]).recorder.video_remainder ∧
    (∀ pre, [Op.timePassed (1 / 60), Op.recordLastFrame] = pre ++ [Op.recordLastFrame] →
      (runOps (initialHost 640 480 60 true [ThreadToMain.AcquiredImage])
        [Op.timePassed (1 / 60), Op.recordLastFrame]).recorder.video_remainder < 1 / 2) :=
  c2_video_remainder_invariant 640 480 60 true [ThreadToMain.AcquiredImage]
    [Op.timePassed (1 / 60), Op.recordLastFrame]
    (by norm_num [NonNegDts, Op.dtNonNeg])

/-! Computation lemmas for `acquire_image_if_needed`. -/

theorem acquire_image_if_needed_already (g : Host)
    (hacq : g.recorder.acquired_image = true) :
    acquire_image_if_needed g = g := by
  unfold acquire_image_if_needed
  rw [if_pos hacq]

theorem acquire_image_if_needed_zero (g : Host)
    (hacq : g.recorder.acquired_image = false)
    (hfr : usizeOfFloat (g.recorder.video_remainder + 1 / 2) = 0) :
    acquire_image_if_needed g = g := by
  unfold acquire_image_if_needed
  dsimp only
  rw [hacq, if_neg Bool.false_ne_true, if_pos hfr]

theorem acquire_image_if_needed_send (g : Host)
    (hacq : g.recorder.acquired_image = false)
    (hopen : g.senderOpen = true)
    (hfr : 0 < usizeOfFloat (g.recorder.video_remainder + 1 / 2)) :
    acquire_image_if_needed g =
      { g with
        recorder := { g.recorder with acquired_image := true },
        sent := g.sent ++ [MainToThread.AcquireImage] } := by
  unfold acquire_image_if_needed send_to_thread
  dsimp only
  rw [hacq, if_neg Bool.false_ne_true, if_neg (Nat.pos_iff_ne_zero.mp hfr),
    if_pos hopen]

/-- C3: `time_passed(dt)` adds `dt / time_base` to `video_remainder` and `dt`
to `sound_remainder`, and then, exactly when `acquired_image` is false and
`⌊video_remainder + 0.5⌋ ≥ 1` in the updated state, sends `AcquireImage` and
sets `acquired_image`; otherwise the flag and the outgoing channel are left
untouched.  (Stated for an open worker channel: delivery of the message is the
channel's happy path.) -/
theorem c3_time_passed (h : Host) (dt : ℚ) (hopen : h.senderOpen = true) :
    (time_passed h dt).recorder.video_remainder =
      h.recorder.video_remainder + dt / h.recorder.time_base ∧
    (time_passed h dt).recorder.sound_remainder =
      h.recorder.sound_remainder + dt ∧
    ((h.recorder.acquired_image = false ∧
        1 ≤ ⌊h.recorder.video_remainder + dt / h.recorder.time_base + 1 / 2⌋) →
      (time_passed h dt).recorder.acquired_image = true ∧
      (time_passed h dt).sent = h.sent ++ [MainToThread.AcquireImage]) ∧
    (¬(h.recorder.acquired_image = false ∧
        1 ≤ ⌊h.recorder.video_remainder + dt / h.recorder.time_base + 1 / 2⌋) →
      (time_passed h dt).recorder.acquired_image = h.recorder.acquired_image ∧
      (time_passed h dt).sent = h.sent) ∧
    (time_passed h dt).inbox = h.inbox := by
  obtain ⟨hv, hs, -⟩ := time_passed_vr h dt
  cases hacqb : h.recorder.acquired_image with
  | true =>
    have key : time_passed h dt =
        { h with recorder := { h.recorder with
            video_remainder := h.recorder.video_remainder + dt / h.recorder.time_base,
            sound_remainder := h.recorder.sound_remainder + dt } } := by
      unfold time_passed
      exact acquire_image_if_needed_already _ hacqb
    refine ⟨hv, hs, ?_, ?_, ?_⟩
    · rintro ⟨h1, -⟩
      exact Bool.noConfusion h1
    · intro _
      rw [key]
      exact ⟨hacqb, rfl⟩
    · rw [key]
  | false =>
    by_cases hfl : 1 ≤ ⌊h.recorder.video_remainder + dt / h.recorder.time_base + 1 / 2⌋
    · have hfr : 0 < usizeOfFloat
          (h.recorder.video_remainder + dt / h.recorder.time_base + 1 / 2) :=
        (usizeOfFloat_pos_iff _).mpr hfl
      have key : time_passed h dt =
          { h with
            recorder := { h.recorder with
              video_remainder := h.recorder.video_remainder + dt / h.recorder.time_base,
              sound_remainder := h.recorder.sound_remainder + dt,
              acquired_image := true },
            sent := h.sent ++ [MainToThread.AcquireImage] } := by
        unfold time_passed
        exact acquire_image_if_needed_send _ hacqb hopen hfr
      refine ⟨hv, hs, fun _ => ⟨by rw [key], by rw [key]⟩, ?_, by rw [key]⟩
      intro hneg
      exact absurd ⟨rfl, hfl⟩ hneg
    · have hfr : usizeOfFloat
          (h.recorder.video_remainder + dt / h.recorder.time_base + 1 / 2) = 0 :=
        (usizeOfFloat_zero_iff _).mpr (by omega)
      have key : time_passed h dt =
          { h with recorder := { h.recorder with
            video_remainder := h.recorder.video_remainder + dt / h.recorder.time_base,
            sound_remainder := h.recorder.sound_remainder + dt } } := by
        unfold time_passed
        exact acquire_image_if_needed_zero _ hacqb hfr
      refine ⟨hv, hs, ?_, ?_, ?_⟩
      · rintro ⟨-, h1⟩
        exact absurd h1 hfl
      · intro _
        rw [key]
        exact ⟨hacqb, rfl⟩
      · rw [key]

/-- C3 witness: a fresh 60 fps session stepped by exactly one frame of time;
the updated remainder reaches 1 and `AcquireImage` goes out. -/
theorem c3_witness :
    (time_passed (initialHost 640 480 60 true []) (1 / 60)).recorder.video_remainder =
      (initialHost 640 480 60 true []).recorder.video_remainder +
        (1 / 60) / (initialHost 640 480 60 true []).recorder.time_base ∧
    (time_passed (initialHost 640 480 60 true []) (1 / 60)).recorder.sound_remainder =
      (initialHost 640 480 60 true []).recorder.sound_remainder + 1 / 60 ∧
    (((initialHost 640 480 60 true []).recorder.acquired_image = false ∧
        1 ≤ ⌊(initialHost 640 480 60 true []).recorder.video_remainder +
          (1 / 60) / (initialHost 640 480 60 true []).recorder.time_base + 1 / 2⌋) →
      (time_passed (initialHost 640 480 60 true []) (1 / 60)).recorder.acquired_image = true ∧
      (time_passed (initialHost 640 480 60 true []) (1 / 60)).sent =
        (initialHost 640 480 60 true []).sent ++ [MainToThread.AcquireImage]) ∧
    (¬((initialHost 640 480 60 true []).recorder.acquired_image = false ∧
        1 ≤ ⌊(initialHost 640 480 60 true []).recorder.video_remainder +
          (1 / 60) / (initialHost 640 480 60 true []).recorder.time_base + 1 / 2⌋) →
      (time_passed (initialHost 640 480 60 true []) (1 / 60)).recorder.acquired_image =
        (initialHost 640 480 60 true []).recorder.acquired_image ∧
      (time_passed (initialHost 640 480 60 true []) (1 / 60)).sent =
        (initialHost 640 480 60 true []).sent) ∧
    (time_passed (initialHost 640 480 60 true []) (1 / 60)).inbox =
      (initialHost 640 480 60 true []).inbox :=
  c3_time_passed (initialHost 640 480 60 true []) (1 / 60) rfl

/-! The acquisition invariant behind C4: at every reachable state, either the
image has been acquired or the pending frame count is still zero. -/

/-- Invariant: `acquired_image` is set, or `⌊video_remainder + 1/2⌋ ≤ 0` (a
`record_last_frame` now would compute `frames = 0`). -/
def AcqInv (h : Host) : Prop :=
  h.recorder.acquired_image = true ∨ ⌊h.recorder.video_remainder + 1 / 2⌋ ≤ 0

theorem acqInv_acquire_image_if_needed (g : Host) :
    AcqInv (acquire_image_if_needed g) := by
  unfold acquire_image_if_needed
  dsimp only
  split
  · next hacq => exact Or.inl hacq
  · split
    · next hfr => exact Or.inr ((usizeOfFloat_zero_iff _).mp hfr)
    · exact Or.inl ((send_to_thread_recorder_core _ _).2.2.2.1)

theorem acqInv_time_passed (h : Host) (dt : ℚ) : AcqInv (time_passed h dt) := by
  unfold time_passed
  exact acqInv_acquire_image_if_needed _

theorem record_outcome_ne_assertAcquired (h : Host) (f : ℕ)
    (hacq : h.recorder.acquired_image = true) :
    (record h f).1 ≠ RecOutcome.assertAcquiredViolated := by
  unfold record
  rw [if_neg (by simp [hacq])]
  rcases hres : recv_from_thread h with ⟨res, h'⟩
  cases res with
  | error e => simp
  | ok m =>
    by_cases hm : m = ThreadToMain.AcquiredImage
    · subst hm
      simp
    · simp [hm]

theorem acqInv_record_last_frame (h : Host) (H : AcqInv h) :
    AcqInv (record_last_frame h).2 ∧
      (record_last_frame h).1 ≠ RecOutcome.assertAcquiredViolated := by
  by_cases hfr : usizeOfFloat (h.recorder.video_remainder + 1 / 2) = 0
  · rw [record_last_frame_zero_eq h hfr]
    exact ⟨H, by simp⟩
  · have hpos : 0 < usizeOfFloat (h.recorder.video_remainder + 1 / 2) :=
      Nat.pos_of_ne_zero hfr
    have hfl : 1 ≤ ⌊h.recorder.video_remainder + 1 / 2⌋ :=
      (usizeOfFloat_pos_iff _).mp hpos
    have hacq : h.recorder.acquired_image = true := by
      rcases H with h1 | h1
      · exact h1
      · omega
    constructor
    · right
      rw [record_last_frame_vr h]
      have hx2 : (0 : ℚ) ≤ h.recorder.video_remainder + 1 / 2 := by
        have h1 : ((1 : ℤ) : ℚ) ≤ h.recorder.video_remainder + 1 / 2 :=
          Int.le_floor.mp hfl
        push_cast at h1
        linarith
      rw [usizeOfFloat_cast _ hx2]
      have harg : h.recorder.video_remainder -
            (⌊h.recorder.video_remainder + 1 / 2⌋ : ℚ) + 1 / 2
          = Int.fract (h.recorder.video_remainder + 1 / 2) := by
        rw [← Int.self_sub_floor]
        ring
      rw [harg, Int.floor_fract]
    · unfold record_last_frame
      dsimp only
      rw [if_pos hpos]
      exact record_outcome_ne_assertAcquired _ _ hacq

theorem runOps_acqInv (ops : List Op) :
    ∀ h : Host, AcqInv h → AcqInv (runOps h ops) := by
  induction ops with
  | nil => exact fun h H => H
  | cons op rest ih =>
    intro h H
    cases op with
    | timePassed dt => exact ih _ (acqInv_time_passed h dt)
    | recordLastFrame => exact ih _ (acqInv_record_last_frame h H).1

theorem runOutcomes_no_assert (ops : List Op) :
    ∀ h : Host, AcqInv h →
      RecOutcome.assertAcquiredViolated ∉ runOutcomes h ops := by
  induction ops with
  | nil =>
    intro h H
    simp [runOutcomes]
  | cons op rest ih =>
    intro h H
    cases op with
    | timePassed dt =>
      simpa [runOutcomes] using ih _ (acqInv_time_passed h dt)
    | recordLastFrame =>
      have hr := acqInv_record_last_frame h H
      intro hmem
      rcases List.mem_cons.mp hmem with he | hm
      · exact hr.2 he.symm
      · exact ih _ hr.1 hm

theorem acqInv_initialHost (w hgt : ℤ) (fps : ℕ) (so : Bool)
    (inbox : List ThreadToMain) : AcqInv (initialHost w hgt fps so inbox) :=
  Or.inr (by norm_num [initialHost])

/-- C4: along every sequence of `time_passed(dt)` (`dt ≥ 0`) and
`record_last_frame()` calls from the state produced by `init`, no
`record_last_frame` call ever reaches `record` with `acquired_image` unset
(the `assert!(self.acquired_image)` panic branch is unreachable), and at any
reachable state in which a `record_last_frame` would compute `frames > 0`
(`⌊video_remainder + 0.5⌋ ≥ 1`) the `acquired_image` flag is true. -/
theorem c4_assert_unreachable (w hgt : ℤ) (fps : ℕ) (so : Bool)
    (inbox : List ThreadToMain) (ops : List Op) (_hnn : NonNegDts ops) :
    RecOutcome.assertAcquiredViolated ∉
      runOutcomes (initialHost w hgt fps so inbox) ops ∧
    (1 ≤ ⌊(runOps (initialHost w hgt fps so inbox) ops).recorder.video_remainder + 1 / 2⌋ →
      (runOps (initialHost w hgt fps so inbox) ops).recorder.acquired_image = true) := by
  have h0 := acqInv_initialHost w hgt fps so inbox
  refine ⟨runOutcomes_no_assert ops _ h0, ?_⟩
  intro h1
  rcases runOps_acqInv ops _ h0 with h2 | h2
  · exact h2
  · omega

/-- C4 witness: a 60 fps run with one whole frame of elapsed time, then a
`record_last_frame`. -/
theorem c4_witness :
    RecOutcome.assertAcquiredViolated ∉
      runOutcomes (initialHost 640 480 60 true [ThreadToMain.AcquiredImage])
        [Op.timePassed (1 / 60), Op.recordLastFrame] ∧
    (1 ≤ ⌊(runOps (initialHost 640 480 60 true [ThreadToMain.AcquiredImage])
        [Op.timePassed (1 / 60), Op.recordLastFrame]).recorder.video_remainder + 1 / 2⌋ →
      (runOps (initialHost 640 480 60 true [ThreadToMain.AcquiredImage])
        [Op.timePassed (1 / 60), Op.recordLastFrame]).recorder.acquired_image = true) :=
  c4_assert_unreachable 640 480 60 true [ThreadToMain.AcquiredImage]
    [Op.timePassed (1 / 60), Op.recordLastFrame]
    (by norm_num [NonNegDts, Op.dtNonNeg])

/-! C5 and C10: `samples_to_capture`. -/

/-- The rounded sample count as the spec words it: `floor(samples)` in
`Normal` mode, `ceil(samples + extra * rate)` in `Remaining{extra}` mode. -/
def specRoundedSamples (mode : SoundCaptureMode) (samples : ℚ) (rate : ℤ) : ℤ :=
  match mode with
  | SoundCaptureMode.Normal => ⌊samples⌋
  | SoundCaptureMode.Remaining extra => ⌈samples + extra * (rate : ℚ)⌉

theorem i32Sat_eq_of_mem (n : ℤ) (h1 : -(2 ^ 31) ≤ n) (h2 : n ≤ 2 ^ 31 - 1) :
    i32Sat n = n := by
  unfold i32Sat
  omega

/-- C5 (amended): for every state and every nonzero rate,
`samples_to_capture(rate, mode)` computes `samples = sound_remainder * rate`,
rounds it per mode (`floor` in `Normal`, `ceil(samples + extra * rate)` in
`Remaining{extra}`), returns that rounded value saturated into the `i32`
range `[-2^31, 2^31 - 1]` — equal to the exact rounded value whenever it fits
— and sets the new `sound_remainder` to `(samples - rounded) / rate` using
the unsaturated rounded value.  (Rate 0 is excluded: there the division turns
the stored remainder into an IEEE NaN, outside this exact-arithmetic model.) -/
theorem c5_samples_to_capture_amended (h : Host) (rate : ℤ)
    (mode : SoundCaptureMode) (_hrate : rate ≠ 0) :
    (samples_to_capture h rate mode).1 =
      i32Sat (specRoundedSamples mode (h.recorder.sound_remainder * (rate : ℚ)) rate) ∧
    (samples_to_capture h rate mode).2.recorder.sound_remainder =
      (h.recorder.sound_remainder * (rate : ℚ) -
        (specRoundedSamples mode (h.recorder.sound_remainder * (rate : ℚ)) rate : ℚ)) /
        (rate : ℚ) ∧
    (-(2 ^ 31) ≤ specRoundedSamples mode (h.recorder.sound_remainder * (rate : ℚ)) rate →
      specRoundedSamples mode (h.recorder.sound_remainder * (rate : ℚ)) rate ≤ 2 ^ 31 - 1 →
      (samples_to_capture h rate mode).1 =
        specRoundedSamples mode (h.recorder.sound_remainder * (rate : ℚ)) rate) := by
  cases mode with
  | Normal =>
    refine ⟨rfl, rfl, ?_⟩
    intro h1 h2
    exact i32Sat_eq_of_mem _ h1 h2
  | Remaining extra =>
    refine ⟨rfl, rfl, ?_⟩
    intro h1 h2
    exact i32Sat_eq_of_mem _ h1 h2

/-- A state with `sound_remainder = 2^31` seconds (every number here is
exactly representable in `f64`). -/
def c5Host : Host :=
  { recorder :=
      { width := 640
        height := 480
        time_base := 1 / 60
        video_remainder := 0
        sound_remainder := 2 ^ 31
        opengl := none
        acquired_image := false
        thread_error := none }
    senderOpen := true
    sent := []
    inbox := [] }

/-- C5 counterexample: at `sound_remainder = 2^31` and `rate = 1` in `Normal`
mode, `floor(samples) = 2^31` does not fit in an `i32`; the function returns
the saturated `2^31 - 1`, not `floor(samples)`, and the new `sound_remainder`
is `0` (computed from the unsaturated value), not the claimed
`(samples - returned) / rate = 1`. -/
theorem c5_counterexample :
    (samples_to_capture c5Host 1 SoundCaptureMode.Normal).1 = 2 ^ 31 - 1 ∧
    (samples_to_capture c5Host 1 SoundCaptureMode.Normal).1 ≠
      ⌊c5Host.recorder.sound_remainder * ((1 : ℤ) : ℚ)⌋ ∧
    (samples_to_capture c5Host 1 SoundCaptureMode.Normal).2.recorder.sound_remainder = 0 ∧
    (c5Host.recorder.sound_remainder * ((1 : ℤ) : ℚ) -
        ((samples_to_capture c5Host 1 SoundCaptureMode.Normal).1 : ℚ)) /
      ((1 : ℤ) : ℚ) = 1 := by
  norm_num [samples_to_capture, c5Host, i32Sat]

/-- A concrete state for the C5 witness: `sound_remainder = 3/2`. -/
def c5WitnessHost : Host :=
  { recorder :=
      { width := 640
        height := 480
        time_base := 1 / 60
        video_remainder := 0
        sound_remainder := 3 / 2
        opengl := none
        acquired_image := false
        thread_error := none }
    senderOpen := true
    sent := []
    inbox := [] }

/-- C5 witness: the amended theorem at `sound_remainder = 3/2`, `rate = 8`,
`Normal` mode (`floor(12) = 12`, well inside the `i32` range). -/
theorem c5_witness :
    (samples_to_capture c5WitnessHost 8 SoundCaptureMode.Normal).1 =
      i32Sat (specRoundedSamples SoundCaptureMode.Normal
        (c5WitnessHost.recorder.sound_remainder * ((8 : ℤ) : ℚ)) 8) ∧
    (samples_to_capture c5WitnessHost 8 SoundCaptureMode.Normal).2.recorder.sound_remainder =
      (c5WitnessHost.recorder.sound_remainder * ((8 : ℤ) : ℚ) -
        (specRoundedSamples SoundCaptureMode.Normal
          (c5WitnessHost.recorder.sound_remainder * ((8 : ℤ) : ℚ)) 8 : ℚ)) / ((8 : ℤ) : ℚ) ∧
    (-(2 ^ 31) ≤ specRoundedSamples SoundCaptureMode.Normal
        (c5WitnessHost.recorder.sound_remainder * ((8 : ℤ) : ℚ)) 8 →
      specRoundedSamples SoundCaptureMode.Normal
        (c5WitnessHost.recorder.sound_remainder * ((8 : ℤ) : ℚ)) 8 ≤ 2 ^ 31 - 1 →
      (samples_to_capture c5WitnessHost 8 SoundCaptureMode.Normal).1 =
        specRoundedSamples SoundCaptureMode.Normal
          (c5WitnessHost.recorder.sound_remainder * ((8 : ℤ) : ℚ)) 8) :=
  c5_samples_to_capture_amended c5WitnessHost 8 SoundCaptureMode.Normal (by decide)


/-- C10: for every rate > 0 and state with nonnegative `sound_remainder`, a
`Normal`-mode call returns a nonnegative count and leaves the new
`sound_remainder` in `[0, 1/rate)` (so consecutive `Normal` calls keep it
nonnegative and below one sample); a `Remaining{extra}` call with `extra ≥ 0`
leaves the new `sound_remainder` at or below `0`. -/
theorem c10_sound_remainder_bounds (h : Host) (rate : ℤ) (extra : ℚ)
    (hrate : 0 < rate) (hsr : 0 ≤ h.recorder.sound_remainder) (hextra : 0 ≤ extra) :
    0 ≤ (samples_to_capture h rate SoundCaptureMode.Normal).1 ∧
    0 ≤ (samples_to_capture h rate SoundCaptureMode.Normal).2.recorder.sound_remainder ∧
    (samples_to_capture h rate SoundCaptureMode.Normal).2.recorder.sound_remainder <
      1 / (rate : ℚ) ∧
    (samples_to_capture h rate (SoundCaptureMode.Remaining extra)).2.recorder.sound_remainder
      ≤ 0 := by
  have hrq : (0 : ℚ) < (rate : ℚ) := by exact_mod_cast hrate
  have hsnn : 0 ≤ h.recorder.sound_remainder * (rate : ℚ) :=
    mul_nonneg hsr (le_of_lt hrq)
  have hfl : 0 ≤ ⌊h.recorder.sound_remainder * (rate : ℚ)⌋ :=
    Int.floor_nonneg.mpr hsnn
  refine ⟨?_, ?_, ?_, ?_⟩
  · show (0 : ℤ) ≤ i32Sat ⌊h.recorder.sound_remainder * (rate : ℚ)⌋
    unfold i32Sat
    omega
  · show (0 : ℚ) ≤ (h.recorder.sound_remainder * (rate : ℚ) -
      (⌊h.recorder.sound_remainder * (rate : ℚ)⌋ : ℚ)) / (rate : ℚ)
    apply div_nonneg _ (le_of_lt hrq)
    rw [Int.self_sub_floor]
    exact Int.fract_nonneg _
  · show (h.recorder.sound_remainder * (rate : ℚ) -
      (⌊h.recorder.sound_remainder * (rate : ℚ)⌋ : ℚ)) / (rate : ℚ) < 1 / (rate : ℚ)
    have hlt : h.recorder.sound_remainder * (rate : ℚ) -
        (⌊h.recorder.sound_remainder * (rate : ℚ)⌋ : ℚ) < 1 := by
      rw [Int.self_sub_floor]
      exact Int.fract_lt_one _
    exact (div_lt_div_iff_of_pos_right hrq).mpr hlt
  · show (h.recorder.sound_remainder * (rate : ℚ) -
      (⌈h.recorder.sound_remainder * (rate : ℚ) + extra * (rate : ℚ)⌉ : ℚ)) / (rate : ℚ) ≤ 0
    apply div_nonpos_iff.mpr
    refine Or.inr ⟨?_, le_of_lt hrq⟩
    have hceil := Int.le_ceil (h.recorder.sound_remainder * (rate : ℚ) + extra * (rate : ℚ))
    have hnn : 0 ≤ extra * (rate : ℚ) := mul_nonneg hextra (le_of_lt hrq)
    linarith


/-- C10 witness: the bounds evaluated on a fresh session (`sound_remainder = 0`)
at `rate = 4`, `extra = 1/2`. -/
theorem c10_witness :
    0 ≤ (samples_to_capture (initialHost 640 480 60 true []) 4 SoundCaptureMode.Normal).1 ∧
    0 ≤ (samples_to_capture (initialHost 640 480 60 true [])
      4 SoundCaptureMode.Normal).2.recorder.sound_remainder ∧
    (samples_to_capture (initialHost 640 480 60 true [])
      4 SoundCaptureMode.Normal).2.recorder.sound_remainder < 1 / ((4 : ℤ) : ℚ) ∧
    (samples_to_capture (initialHost 640 480 60 true [])
      4 (SoundCaptureMode.Remaining (1 / 2))).2.recorder.sound_remainder ≤ 0 :=
  c10_sound_remainder_bounds (initialHost 640 480 60 true []) 4 (1 / 2)
    (by decide) (by norm_num [initialHost]) (by norm_num)

/-! C6: `init` validation order. -/

/-- C6: odd `width` or `height` makes `init` return the validation error with
no effect performed (no Vulkan init, no muxer, no channels, no thread); with
both even the validation passes and initialization proceeds to the Vulkan
backend init. -/
theorem c6_init_validation (w hgt : ℤ) (fps : ℕ) (fname : String)
    (vk : Except String Unit) (mx : Except MuxerInitError Unit) :
    (¬(w % 2 = 0 ∧ hgt % 2 = 0) →
      (init w hgt fps fname vk mx).1 = Except.error (InitError.Validation w hgt) ∧
      (init w hgt fps fname vk mx).2 = []) ∧
    ((w % 2 = 0 ∧ hgt % 2 = 0) →
      InitEffect.VulkanInit ∈ (init w hgt fps fname vk mx).2) := by
  constructor
  · intro hodd
    unfold init
    rw [if_pos hodd]
    exact ⟨rfl, rfl⟩
  · intro heven
    unfold init
    rw [if_neg (not_not_intro heven)]
    cases vk with
    | error e => simp
    | ok u =>
      cases mx with
      | error me => cases me <;> simp
      | ok u2 => simp

/-- C6 witness: `init(3, 4, ...)` is rejected by validation with an empty
effect trace. -/
theorem c6_witness :
    (init 3 4 60 "out.mp4" (Except.ok ()) (Except.ok ())).1 =
      Except.error (InitError.Validation 3 4) ∧
    (init 3 4 60 "out.mp4" (Except.ok ()) (Except.ok ())).2 = [] :=
  (c6_init_validation 3 4 60 "out.mp4" (Except.ok ()) (Except.ok ())).1 (by decide)

/-! C7: error propagation out of the blocking wait of `record_last_frame`. -/

/-- C7: while `record_last_frame` blocks for the acquisition acknowledgment
(`frames > 0`, image acquired), receiving `Error(e)` makes it return exactly
`e`; a closed channel with no message makes it return the previously stashed
error when one exists, and the opaque `"recording thread error"` report
otherwise. -/
theorem c7_record_last_frame_errors (h : Host) (e : String)
    (rest : List ThreadToMain)
    (hacq : h.recorder.acquired_image = true)
    (hfr : 1 ≤ ⌊h.recorder.video_remainder + 1 / 2⌋) :
    (h.inbox = ThreadToMain.Error e :: rest →
      (record_last_frame h).1 = RecOutcome.fail e) ∧
    (h.inbox = [] → ∀ e0, h.recorder.thread_error = some e0 →
      (record_last_frame h).1 = RecOutcome.fail e0) ∧
    (h.inbox = [] → h.recorder.thread_error = none →
      (record_last_frame h).1 = RecOutcome.fail recordingThreadErrorMessage) := by
  have hpos : 0 < usizeOfFloat (h.recorder.video_remainder + 1 / 2) :=
    (usizeOfFloat_pos_iff _).mpr hfr
  refine ⟨?_, ?_, ?_⟩
  · intro hbx
    unfold record_last_frame
    dsimp only
    rw [if_pos hpos]
    unfold record
    rw [if_neg (by simp [hacq])]
    unfold recv_from_thread
    dsimp only
    rw [hbx]
  · intro hbx e0 hte
    unfold record_last_frame
    dsimp only
    rw [if_pos hpos]
    unfold record
    rw [if_neg (by simp [hacq])]
    unfold recv_from_thread
    dsimp only
    rw [hbx, hte]
    rfl
  · intro hbx hte
    unfold record_last_frame
    dsimp only
    rw [if_pos hpos]
    unfold record
    rw [if_neg (by simp [hacq])]
    unfold recv_from_thread
    dsimp only
    rw [hbx, hte]
    rfl


/-- Error payload of a worker → host message. -/
def errPayload : ThreadToMain → Option String
  | ThreadToMain.Error e => some e
  | _ => none

theorem getLast?_cons_or (a : String) (l : List String) :
    (a :: l).getLast? = (l.getLast? <|> some a) := by
  cases l with
  | nil => rfl
  | cons b t =>
    rw [List.getLast?_cons_cons]
    have hsome : (b :: t).getLast?.isSome := by
      rw [List.getLast?_isSome]
      simp
    obtain ⟨x, hx⟩ := Option.isSome_iff_exists.mp hsome
    rw [hx]
    rfl

theorem drainKeepLastError_eq (l : List ThreadToMain) :
    ∀ acc, drainKeepLastError l acc = ((l.filterMap errPayload).getLast? <|> acc) := by
  induction l with
  | nil => intro acc; rfl
  | cons m rest ih =>
    intro acc
    cases m with
    | Error e =>
      show drainKeepLastError rest (some e) = _
      rw [ih (some e)]
      have hfm : (ThreadToMain.Error e :: rest).filterMap errPayload =
          e :: rest.filterMap errPayload := by
        simp [List.filterMap_cons, errPayload]
      rw [hfm, getLast?_cons_or]
      cases h2 : (rest.filterMap errPayload).getLast? with
      | none => rfl
      | some x => rfl
    | ExtHandles n =>
      show drainKeepLastError rest acc = _
      rw [ih acc]
      have hfm : (ThreadToMain.ExtHandles n :: rest).filterMap errPayload =
          rest.filterMap errPayload := by
        simp [List.filterMap_cons, errPayload]
      rw [hfm]
    | AcquiredImage =>
      show drainKeepLastError rest acc = _
      rw [ih acc]
      have hfm : (ThreadToMain.AcquiredImage :: rest).filterMap errPayload =
          rest.filterMap errPayload := by
        simp [List.filterMap_cons, errPayload]
      rw [hfm]

/-- C8: `finish` always sends `Finish`, drains every remaining worker → host
message keeping the last `Error` seen (falling back to the previously stashed
error), joins the worker thread, and returns unit — its result type
(`FinishResult`) has no error component at all; the collected error is only
logged. -/
theorem c8_finish (h : Host) (hopen : h.senderOpen = true) :
    (finish h).sent = h.sent ++ [MainToThread.Finish] ∧
    (finish h).logged =
      ((h.inbox.filterMap errPayload).getLast? <|> h.recorder.thread_error) ∧
    (finish h).joined = true := by
  unfold finish
  rw [send_to_thread_open h _ hopen]
  exact ⟨rfl, drainKeepLastError_eq h.inbox h.recorder.thread_error, rfl⟩

/-- An error text used by concrete witness states. -/
def boomMessage : String := "boom"

/-- A concrete state for the C8 witness: one pending acknowledgment and one
pending worker error. -/
def c8WitnessHost : Host :=
  { recorder :=
      { width := 640
        height := 480
        time_base := 1 / 60
        video_remainder := 0
        sound_remainder := 0
        opengl := none
        acquired_image := false
        thread_error := none }
    senderOpen := true
    sent := []
    inbox := [ThreadToMain.AcquiredImage, ThreadToMain.Error boomMessage] }

/-- C8 witness: `finish` on the concrete state. -/
theorem c8_witness :
    (finish c8WitnessHost).sent = c8WitnessHost.sent ++ [MainToThread.Finish] ∧
    (finish c8WitnessHost).logged =
      ((c8WitnessHost.inbox.filterMap errPayload).getLast? <|>
        c8WitnessHost.recorder.thread_error) ∧
    (finish c8WitnessHost).joined = true :=
  c8_finish c8WitnessHost rfl

/-- A concrete state for the C7 witness: a full frame pending and the worker
reporting an error. -/
def c7WitnessHost : Host :=
  { recorder :=
      { width := 640
        height := 480
        time_base := 1 / 60
        video_remainder := 1
        sound_remainder := 0
        opengl := none
        acquired_image := true
        thread_error := none }
    senderOpen := true
    sent := []
    inbox := [ThreadToMain.Error boomMessage] }

/-- C7 witness: the error-propagation theorem at the concrete state. -/
theorem c7_witness :
    (c7WitnessHost.inbox = ThreadToMain.Error boomMessage :: [] →
      (record_last_frame c7WitnessHost).1 = RecOutcome.fail boomMessage) ∧
    (c7WitnessHost.inbox = [] → ∀ e0, c7WitnessHost.recorder.thread_error = some e0 →
      (record_last_frame c7WitnessHost).1 = RecOutcome.fail e0) ∧
    (c7WitnessHost.inbox = [] → c7WitnessHost.recorder.thread_error = none →
      (record_last_frame c7WitnessHost).1 = RecOutcome.fail recordingThreadErrorMessage) :=
  c7_record_last_frame_errors c7WitnessHost boomMessage [] rfl
    (by norm_num [c7WitnessHost])


/-! C9: the worker loop closes the muxer exactly once on every exit path. -/

theorem runThread_cons (m : MainToThread) (r : Except String Unit)
    (rest : List (MainToThread × Except String Unit)) :
    runThread ((m, r) :: rest) =
      match process_message m r with
      | (events, Except.ok true) => events ++ [WEvent.muxerClose]
      | (events, Except.ok false) => events ++ runThread rest
      | (events, Except.error e) =>
        events ++ [WEvent.sentToMain (ThreadToMain.Error e), WEvent.muxerClose] := rfl

theorem countClose_append (a b : List WEvent) :
    countClose (a ++ b) = countClose a + countClose b := by
  induction a with
  | nil => simp [countClose]
  | cons x t ih =>
    cases x with
    | muxerClose => simp [countClose, ih]; omega
    | sentToMain m => simp [countClose, ih]
    | muxedVideo f => simp [countClose, ih]
    | muxedAudio sm => simp [countClose, ih]

theorem countClose_process (m : MainToThread) (r : Except String Unit) :
    countClose (process_message m r).1 = 0 := by
  cases m <;> cases r <;> rfl

theorem runThread_close_once (msgs : List (MainToThread × Except String Unit)) :
    countClose (runThread msgs) = 1 := by
  induction msgs with
  | nil => rfl
  | cons x rest ih =>
    rcases x with ⟨m, r⟩
    rw [runThread_cons]
    rcases hp : process_message m r with ⟨events, out⟩
    have hev : countClose events = 0 := by
      have := countClose_process m r
      rw [hp] at this
      exact this
    cases out with
    | ok b =>
      cases b with
      | true =>
        show countClose (events ++ [WEvent.muxerClose]) = 1
        rw [countClose_append, hev]
        rfl
      | false =>
        show countClose (events ++ runThread rest) = 1
        rw [countClose_append, hev, ih]
    | error e =>
      show countClose (events ++
        [WEvent.sentToMain (ThreadToMain.Error e), WEvent.muxerClose]) = 1
      rw [countClose_append, hev]
      rfl

theorem runThread_stops_at_terminal
    (pre : List (MainToThread × Except String Unit)) :
    ∀ (x : MainToThread × Except String Unit) post,
      (∀ y ∈ pre, (process_message y.1 y.2).2 = Except.ok false) →
      (process_message x.1 x.2).2 ≠ Except.ok false →
      runThread (pre ++ x :: post) = runThread (pre ++ [x]) := by
  induction pre with
  | nil =>
    intro x post hpre hx
    rcases x with ⟨m, r⟩
    rw [List.nil_append, List.nil_append, runThread_cons, runThread_cons]
    rcases hp : process_message m r with ⟨events, out⟩
    rw [hp] at hx
    cases out with
    | ok b =>
      cases b with
      | true => rfl
      | false => exact absurd rfl hx
    | error e => rfl
  | cons y t ih =>
    intro x post hpre hx
    rcases y with ⟨m, r⟩
    have hy : (process_message m r).2 = Except.ok false :=
      hpre (m, r) (List.mem_cons_self _ _)
    rcases hp : process_message m r with ⟨events, out⟩
    rw [hp] at hy
    cases hy
    rw [List.cons_append, List.cons_append, runThread_cons, runThread_cons, hp]
    dsimp only
    rw [ih x post (fun z hz => hpre z (List.mem_cons_of_mem _ hz)) hx]

theorem runThread_error_shape
    (pre : List (MainToThread × Except String Unit)) :
    ∀ (x : MainToThread × Except String Unit) post (e : String),
      (∀ y ∈ pre, (process_message y.1 y.2).2 = Except.ok false) →
      (process_message x.1 x.2).2 = Except.error e →
      ∃ evs, runThread (pre ++ x :: post) =
        evs ++ [WEvent.sentToMain (ThreadToMain.Error e), WEvent.muxerClose] := by
  induction pre with
  | nil =>
    intro x post e _ hx
    rcases x with ⟨m, r⟩
    rcases hp : process_message m r with ⟨events, out⟩
    rw [hp] at hx
    cases hx
    refine ⟨events, ?_⟩
    rw [List.nil_append, runThread_cons, hp]
  | cons y t ih =>
    intro x post e hpre hx
    rcases y with ⟨m, r⟩
    have hy : (process_message m r).2 = Except.ok false :=
      hpre (m, r) (List.mem_cons_self _ _)
    rcases hp : process_message m r with ⟨events, out⟩
    rw [hp] at hy
    cases hy
    obtain ⟨evs, hevs⟩ :=
      ih x post e (fun z hz => hpre z (List.mem_cons_of_mem _ hz)) hx
    refine ⟨events ++ evs, ?_⟩
    rw [List.cons_append, runThread_cons, hp]
    dsimp only
    rw [hevs, List.append_assoc]

/-- C9: the worker loop stops at the first `Finish`, at the first message
whose processing yields an error (sending `Error(e)` first), or at the end of
the inbound stream (channel closed); on every such exit path the muxer is
closed exactly once. -/
theorem c9_worker_close_once (msgs : List (MainToThread × Except String Unit)) :
    countClose (runThread msgs) = 1 ∧
    (∀ pre x post, msgs = pre ++ x :: post →
      (∀ y ∈ pre, (process_message y.1 y.2).2 = Except.ok false) →
      (process_message x.1 x.2).2 ≠ Except.ok false →
      runThread msgs = runThread (pre ++ [x])) ∧
    (∀ pre x post e, msgs = pre ++ x :: post →
      (∀ y ∈ pre, (process_message y.1 y.2).2 = Except.ok false) →
      (process_message x.1 x.2).2 = Except.error e →
      ∃ evs, runThread msgs =
        evs ++ [WEvent.sentToMain (ThreadToMain.Error e), WEvent.muxerClose]) := by
  refine ⟨runThread_close_once msgs, ?_, ?_⟩
  · intro pre x post hsplit hpre hx
    rw [hsplit]
    exact runThread_stops_at_terminal pre x post hpre hx
  · intro pre x post e hsplit hpre hx
    rw [hsplit]
    exact runThread_error_shape pre x post e hpre hx

/-- C9 witness: a stream `[Audio, Finish, Record 3]` — the count is 1 and the
`Record` after `Finish` is never processed. -/
theorem c9_witness :
    countClose (runThread [(MainToThread.Audio [], Except.ok ()),
      (MainToThread.Finish, Except.ok ()), (MainToThread.Record 3, Except.ok ())]) = 1 ∧
    runThread [(MainToThread.Audio [], Except.ok ()),
        (MainToThread.Finish, Except.ok ()), (MainToThread.Record 3, Except.ok ())] =
      runThread [(MainToThread.Audio [], Except.ok ()),
        (MainToThread.Finish, Except.ok ())] :=
  ⟨(c9_worker_close_once [(MainToThread.Audio [], Except.ok ()),
      (MainToThread.Finish, Except.ok ()), (MainToThread.Record 3, Except.ok ())]).1,
    (c9_worker_close_once [(MainToThread.Audio [], Except.ok ()),
        (MainToThread.Finish, Except.ok ()), (MainToThread.Record 3, Except.ok ())]).2.1
      [(MainToThread.Audio [], Except.ok ())]
      (MainToThread.Finish, Except.ok ())
      [(MainToThread.Record 3, Except.ok ())]
      rfl
      (by simp [process_message])
      (by simp [process_message])⟩

end Capture
